import Mathlib

/-
  Verification development for the ai_code_review_system repository.

  Shallow embedding of the orchestration-relevant source:
    - agents/error_comparator_agent.py  (issue normalization, comparison, merging)
    - controls/recursive_controller.py  (scoring, prioritization, convergence,
      the per-round refinement step and its stop decision)

  Conventions of the embedding:
    - Python dicts with optional keys become structures with Option fields;
      every `d.get(k, v)` in the source becomes `field.getD v`.
    - Python floats become Rat. Every numeric constant in the source is a
      short exact decimal, and every comparison the claims touch is between
      such decimals, so no float-rounding behavior is lost.
    - External collaborators (LLM quality agent, static-analysis dispatcher,
      critic, refactor agent, optimization agent, and the stdlib
      difflib.SequenceMatcher ratio) are parameters of the model, mirroring
      the spec, which scopes them out as pluggable collaborators.
    - The statistics loop of compare_issues indexes two fixed-key dicts; a
      severity string outside the four known keys would raise KeyError in
      Python, so compareIssues returns Except, erroring exactly when that
      lookup would fail.
-/

set_option allowUnsafeReducibility true in
attribute [semireducible] Rat.add Rat.mul Rat.sub Rat.ofScientific

namespace AIReview

/-- Raw finding as produced by an analyzer collaborator: a dict with
optional keys.  `issue` and `description` are the two description-carrying
keys read by the comparator. -/
structure RawIssue where
  line : Option Int := none
  issue : Option String := none
  description : Option String := none
  suggestion : Option String := none
  severity : Option String := none
  confidence : Option Rat := none
deriving Repr, DecidableEq

/-- Fully-populated issue after ingestion by compare_issues (the canonical
Issue of the data model).  `priority` is absent until prioritize_issues
sets it, mirroring the dict key added there. -/
structure PIssue where
  line : Int
  description : String
  suggestion : String
  source : String
  severity : String
  confidence : Rat
  category : String
  priority : Option Rat := none
deriving Repr, DecidableEq

/-- One user-feedback entry as read by prioritize_issues (both keys are
accessed unconditionally in the source). -/
structure Feedback where
  description : String
  accepted : Bool
deriving Repr, DecidableEq

/-- Python str.lower, as a map over the character list. -/
def pyLower (s : String) : String :=
  ⟨s.data.map Char.toLower⟩

/-- Python str.strip: whitespace removed from both ends. -/
def pyStrip (s : String) : String :=
  ⟨((s.data.dropWhile Char.isWhitespace).reverse.dropWhile Char.isWhitespace).reverse⟩

/-- Whether the pattern matches the beginning of the text (on char lists). -/
def leadsList : List Char → List Char → Bool
  | [], _ => true
  | _ :: _, [] => false
  | a :: as, b :: bs => a == b && leadsList as bs

/-- Substring test on char lists: Python's `needle in hay`. -/
def subList (needle : List Char) : List Char → Bool
  | [] => needle.isEmpty
  | c :: rest => leadsList needle (c :: rest) || subList needle rest

/-- Python's `needle in hay` for strings. -/
def strHas (hay needle : String) : Bool :=
  subList needle.toList hay.toList

/-- Stable ordered insert (Boolean comparison): the new element goes after
every existing element it does not strictly have to precede. -/
def orderedInsertB (le : α → α → Bool) (a : α) : List α → List α
  | [] => [a]
  | b :: bs => if le a b then a :: b :: bs else b :: orderedInsertB le a bs

/-- Stable insertion sort.  Python's sorted is a stable sort; for the total
key comparisons used here, every stable sort produces the same list, so
this models sorted faithfully. -/
def stableSort (le : α → α → Bool) : List α → List α
  | [] => []
  | x :: xs => orderedInsertB le x (stableSort le xs)

/-- Keyword vocabularies of _categorize_issue. -/
def securityKeywords : List String :=
  ["security", "vulnerability", "injection", "xss", "csrf", "hardcode"]

def performanceKeywords : List String :=
  ["performance", "slow", "inefficient", "loop", "complexity"]

def styleKeywords : List String :=
  ["style", "formatting", "convention", "naming"]

def bugKeywords : List String :=
  ["bug", "error", "exception", "null", "undefined"]

/-- _categorize_issue: first matching vocabulary wins, in the order
security, performance, style, bug; default general.  Case-insensitive
substring match. -/
def categorizeIssue (description : String) : String :=
  let d := pyLower description
  if securityKeywords.any (fun k => strHas d k) then "security"
  else if performanceKeywords.any (fun k => strHas d k) then "performance"
  else if styleKeywords.any (fun k => strHas d k) then "style"
  else if bugKeywords.any (fun k => strHas d k) then "bug"
  else "general"

/-- IssueComparator.SEVERITY_WEIGHTS with the dict-lookup default 0.6. -/
def severityWeight (s : String) : Rat :=
  if s == "critical" then 1
  else if s == "high" then 0.8
  else if s == "medium" then 0.6
  else if s == "low" then 0.4
  else 0.6

/-- calculate_text_similarity: identical after trim and lowercasing gives
1.0, otherwise the difflib.SequenceMatcher ratio of the cleaned strings;
the ratio function is an external-library parameter of the model. -/
def calculateTextSimilarity (ratio : String → String → Rat)
    (text1 text2 : String) : Rat :=
  let c1 := pyLower (pyStrip text1)
  let c2 := pyLower (pyStrip text2)
  if c1 == c2 then 1 else ratio c1 c2

/-- are_issues_similar: same line number and description similarity at or
above the threshold (compare_issues constructs the comparator with the
default threshold 0.8). -/
def areIssuesSimilar (ratio : String → String → Rat) (threshold : Rat)
    (i1 i2 : PIssue) : Bool :=
  i1.line == i2.line &&
    decide (calculateTextSimilarity ratio i1.description i2.description ≥ threshold)

/-- merge_similar_issues: concatenated description when the two differ,
first nonempty suggestion, source Both, the input severity of larger
SEVERITY_WEIGHTS (ties keep the first), max confidence, first category. -/
def mergeSimilarIssues (i1 i2 : PIssue) : PIssue :=
  let desc1 := pyStrip i1.description
  let desc2 := pyStrip i2.description
  let mergedDescription :=
    if pyLower desc1 == pyLower desc2 then desc1
    else desc1 ++ ". Additional: " ++ desc2
  { line := i1.line
    description := mergedDescription
    suggestion := if i1.suggestion == "" then i2.suggestion else i1.suggestion
    source := "Both"
    severity :=
      if severityWeight i1.severity ≥ severityWeight i2.severity
      then i1.severity else i2.severity
    confidence := max i1.confidence i2.confidence
    category := i1.category
    priority := none }

/-- compare_issues, AI-side normalization: description from the `issue`
key falling back to `description`, category keyed on the `issue` text. -/
def processAIIssue (i : RawIssue) : PIssue :=
  { line := i.line.getD 0
    description := (i.issue).getD ((i.description).getD "")
    suggestion := i.suggestion.getD ""
    source := "AI"
    severity := i.severity.getD "medium"
    confidence := i.confidence.getD 0.8
    category := categorizeIssue (i.issue.getD "")
    priority := none }

/-- compare_issues, static-side normalization: description and category
both read the `issue` key. -/
def processStaticIssue (i : RawIssue) : PIssue :=
  { line := i.line.getD 0
    description := i.issue.getD ""
    suggestion := i.suggestion.getD ""
    source := "Static"
    severity := i.severity.getD "medium"
    confidence := i.confidence.getD 0.8
    category := categorizeIssue (i.issue.getD "")
    priority := none }

/-- Python enumerate starting at n. -/
def enumIdx : Nat → List PIssue → List (Nat × PIssue)
  | _, [] => []
  | n, a :: as => (n, a) :: enumIdx (n + 1) as

/-- Inner loop of compare_issues matching: the first unmatched static
issue similar to the AI issue (the source breaks at the first hit). -/
def findMatch (ratio : String → String → Rat) (threshold : Rat)
    (a : PIssue) (matched : List Nat) :
    List (Nat × PIssue) → Option (Nat × PIssue)
  | [] => none
  | (idx, s) :: rest =>
    if matched.contains idx then findMatch ratio threshold a matched rest
    else if areIssuesSimilar ratio threshold a s then some (idx, s)
    else findMatch ratio threshold a matched rest

/-- Outer loop of compare_issues matching: each AI issue is either merged
with its first unmatched similar static issue (whose index then joins the
matched set) or kept standalone.  Returns the produced list and the final
matched index set. -/
def matchIssues (ratio : String → String → Rat) (threshold : Rat) :
    List PIssue → List (Nat × PIssue) → List Nat → List PIssue × List Nat
  | [], _, matched => ([], matched)
  | a :: rest, statics, matched =>
    match findMatch ratio threshold a matched statics with
    | some (idx, s) =>
      let r := matchIssues ratio threshold rest statics (idx :: matched)
      (mergeSimilarIssues a s :: r.1, r.2)
    | none =>
      let r := matchIssues ratio threshold rest statics matched
      (a :: r.1, r.2)

/-- severity_order of the final sort in compare_issues (dict default 2). -/
def severityOrderKey (s : String) : Nat :=
  if s == "critical" then 0
  else if s == "high" then 1
  else if s == "medium" then 2
  else if s == "low" then 3
  else 2

/-- Comparison used by the final stable sort of compare_issues: ascending
on (severity order, line). -/
def compareSortLe (a b : PIssue) : Bool :=
  severityOrderKey a.severity < severityOrderKey b.severity ||
    (severityOrderKey a.severity == severityOrderKey b.severity &&
      decide (a.line ≤ b.line))

/-- The statistics loop of compare_issues indexes the fixed-key dicts
count[source] and severity_count[severity]; this is the condition under
which those lookups succeed (otherwise Python raises KeyError). -/
def statsValid (merged : List PIssue) : Bool :=
  merged.all fun i =>
    (["AI", "Static", "Both"].contains i.source) &&
    (["critical", "high", "medium", "low"].contains i.severity)

/-- compare_issues: normalize both analyzer lists, match and merge, append
unmatched static issues, run the statistics loop (modelled as the KeyError
check), and return the list sorted by (severity order, line). -/
def compareIssues (ratio : String → String → Rat)
    (aiIssues staticIssues : List RawIssue) : Except String (List PIssue) :=
  let pai := aiIssues.map processAIIssue
  let pst := staticIssues.map processStaticIssue
  let stEnum := enumIdx 0 pst
  let r := matchIssues ratio 0.8 pai stEnum []
  let leftover := (stEnum.filter fun p => !(r.2.contains p.1)).map (·.2)
  let merged := r.1 ++ leftover
  if statsValid merged then .ok (stableSort compareSortLe merged)
  else .error "KeyError"

/-- Severity multiplier of calculate_weighted_issue_score (dict default 1.0). -/
def severityMultiplier (s : String) : Rat :=
  if s == "critical" then 2
  else if s == "high" then 1.5
  else if s == "medium" then 1
  else if s == "low" then 0.5
  else 1

/-- calculate_weighted_issue_score: running sum over issues of
weights.get(category, 1.0) * severity multiplier.  The weights dict is a
partial map, as in the source. -/
def calculateWeightedIssueScore (issues : List PIssue)
    (weights : String → Option Rat) : Rat :=
  issues.foldl (fun acc i => acc + (weights i.category).getD 1 * severityMultiplier i.severity) 0

/-- Priority assigned by prioritize_issues per severity (dict default 0.5). -/
def priorityOf (s : String) : Rat :=
  if s == "high" then 1
  else if s == "medium" then 0.7
  else if s == "low" then 0.4
  else 0.5

/-- Normalized descriptions of the rejected feedback entries. -/
def rejectedDescriptions (feedback : List Feedback) : List String :=
  (feedback.filter fun f => !f.accepted).map fun f => pyLower (pyStrip f.description)

/-- The priority field prioritize_issues writes into a surviving issue. -/
def withPriority (i : PIssue) : PIssue :=
  { i with priority := some (priorityOf i.severity) }

/-- prioritize_issues: skip issues whose normalized description is in the
rejected set, set the priority field on the rest, and stable-sort by
priority descending (Python sorted with reverse=True). -/
def prioritizeIssues (issues : List PIssue) (feedback : List Feedback) :
    List PIssue :=
  let rejected := rejectedDescriptions feedback
  let prioritized := issues.filterMap fun i =>
    if rejected.contains (pyLower (pyStrip i.description)) then none
    else some (withPriority i)
  stableSort (fun a b => decide ((b.priority.getD 0.5) ≤ (a.priority.getD 0.5)))
    prioritized

/-- Python max over a nonempty float list (0 for the empty list, which the
source never reaches). -/
def listMax : List Rat → Rat
  | [] => 0
  | x :: xs => xs.foldl max x

/-- Python min over a nonempty float list. -/
def listMin : List Rat → Rat
  | [] => 0
  | x :: xs => xs.foldl min x

/-- has_converged: false with fewer than 3 scores, otherwise the spread of
the last 3 scores is below the threshold. -/
def hasConverged (scores : List Rat) (threshold : Rat) : Bool :=
  if scores.length < 3 then false
  else
    let recent := scores.drop (scores.length - 3)
    decide (listMax recent - listMin recent < threshold)

/-- Quality-agent result dict: `score` may be absent (the controller reads
it with two different defaults); an absent `issues` key behaves as the
empty list at every read site, so it is embedded as a plain list. -/
structure QualityResult where
  score : Option Rat := none
  issues : List RawIssue := []
deriving Repr, DecidableEq

/-- Optimization-agent suggestion dict (keys read in refinement_step). -/
structure OptSuggestion where
  line : Option Int := none
  description : Option String := none
  suggestion : Option String := none
deriving Repr, DecidableEq

/-- The issue dict refinement_step builds from an optimization suggestion.
The source dict carries no category key; the issue is only handed to the
refactor collaborator, which treats it opaquely, so the ingestion default
general stands in for the absent key. -/
def optimizationIssue (s : OptSuggestion) : PIssue :=
  { line := s.line.getD 0
    description := s.description.getD ""
    suggestion := s.suggestion.getD ""
    source := "Optimization"
    severity := "low"
    confidence := 0.8
    category := "general"
    priority := none }

/-- External collaborators of one run, as scoped out by the spec: the LLM
quality agent, the static-analysis dispatcher, the critic, the refactor
agent, the optimization agent, and the difflib similarity ratio.  The api
key and the context dict are constant through a run and are absorbed into
the functions. -/
structure Collab where
  quality : String → QualityResult
  staticAnalysis : String → List RawIssue
  critic : String → List PIssue → List PIssue
  refactor : String → List PIssue → String
  optimizer : String → List OptSuggestion
  ratio : String → String → Rat

/-- Values of load_config's analysis section consumed by refinement_step,
with the documented defaults (used when config.yaml is missing). -/
structure Config where
  min_score_threshold : Rat := 90
  max_iterations : Nat := 5
  max_high_severity_issues : Nat := 0
  stagnation_threshold : Nat := 2
  convergence_threshold : Rat := 2
  issue_weights : String → Option Rat

/-- The default issue_weights table of load_config. -/
def defaultIssueWeights (category : String) : Option Rat :=
  if category == "security" then some 2
  else if category == "bug" then some 1.5
  else if category == "performance" then some 1.2
  else if category == "style" then some 0.8
  else if category == "general" then some 1
  else none

/-- The default analysis configuration. -/
def defaultConfig : Config := { issue_weights := defaultIssueWeights }

/-- Record appended to the run history each round (iteration_record). -/
structure RoundRecord where
  iteration : Nat
  score : Rat
  issue_count : Nat
  issues_fixed : Nat
  high_severity_count : Nat
  improved : Bool
  optimization_applied : Bool
  optimization_suggestions_count : Nat
  weighted_issue_score : Rat
deriving Repr, DecidableEq

/-- best_issues can hold either the raw issue list of a quality result or,
through the state.get default, the refined processed list; only its length
is read. -/
inductive IssueListRef
  | raw (l : List RawIssue)
  | refined (l : List PIssue)
deriving Repr, DecidableEq

/-- Length of either issue-list form. -/
def IssueListRef.size : IssueListRef → Nat
  | .raw l => l.length
  | .refined l => l.length

/-- The CodeState dict threaded through rounds.  Fields the step reads
with a constant default are plain fields with that default; fields whose
state.get fallback is computed (config values, best-so-far values) are
Option fields. -/
structure CodeState where
  code : String
  iteration : Nat := 0
  history : List RoundRecord := []
  continue_ : Bool := true
  best_code : Option String := none
  best_score : Option Rat := none
  best_issues : Option IssueListRef := none
  issue_count : Nat := 0
  issues_fixed : Nat := 0
  feedback : List Feedback := []
  min_score_threshold : Option Rat := none
  max_high_severity_issues : Option Nat := none
  max_iterations : Option Nat := none
  optimization_applied : Bool := false
  previous_scores : List Rat := []
  stagnation_count : Nat := 0
  user_stop : Bool := false
deriving Repr, DecidableEq

/-- The six stop reasons of refinement_step, in source order. -/
inductive StopReason
  | userStop
  | maxIterations
  | noIssues
  | qualityThreshold
  | stagnation
  | convergence
deriving Repr, DecidableEq

/-- The continuation decision of refinement_step: the elif chain in source
order; none means the loop continues. -/
def decideStop (userStop : Bool) (iteration maxIterations : Nat)
    (newIssueCount : Nat) (newScore minScoreThreshold : Rat)
    (highSeverityCount maxHighSeverityIssues : Nat)
    (weightedIssueScore : Rat) (stagnationCount stagnationThreshold : Nat)
    (previousScores : List Rat) (convergenceThreshold : Rat) :
    Option StopReason :=
  if userStop then some .userStop
  else if iteration + 1 ≥ maxIterations then some .maxIterations
  else if newIssueCount = 0 then some .noIssues
  else if newScore ≥ minScoreThreshold ∧ highSeverityCount ≤ maxHighSeverityIssues ∧
      weightedIssueScore < 1 then some .qualityThreshold
  else if stagnationCount ≥ stagnationThreshold then some .stagnation
  else if hasConverged previousScores convergenceThreshold then some .convergence
  else none

/-- high_severity_count: the issues of a raw list whose severity key
equals high (an absent key reads as None and is not counted). -/
def highSeverityCountRaw (issues : List RawIssue) : Nat :=
  (issues.filter fun i => i.severity == some "high").length

/-- improved: the appended score history has length above 1 (so a prior
round exists) and the current score strictly exceeds the previous one. -/
def improvedFlag (previousScores : List Rat) (currentScore : Rat) : Bool :=
  match previousScores.getLast? with
  | none => false
  | some p => decide (currentScore > p)

/-- stagnation_count update: reset on improvement, increment otherwise. -/
def stagnationUpdate (improved : Bool) (stagnationCount : Nat) : Nat :=
  if improved then 0 else stagnationCount + 1

/-- min_score_threshold as resolved from state with config fallback. -/
def resolvedMinScore (cfg : Config) (s : CodeState) : Rat :=
  s.min_score_threshold.getD cfg.min_score_threshold

/-- max_iterations as resolved from state with config fallback. -/
def resolvedMaxIterations (cfg : Config) (s : CodeState) : Nat :=
  s.max_iterations.getD cfg.max_iterations

/-- max_high_severity_issues as resolved from state with config fallback. -/
def resolvedMaxHigh (cfg : Config) (s : CodeState) : Nat :=
  s.max_high_severity_issues.getD cfg.max_high_severity_issues

/-- The quality result on the round's input code. -/
def roundCurrentQuality (c : Collab) (s : CodeState) : QualityResult :=
  c.quality s.code

/-- current_score (dict default 0). -/
def roundCurrentScore (c : Collab) (s : CodeState) : Rat :=
  (roundCurrentQuality c s).score.getD 0

/-- The reconciliation of the round: compare_issues on the quality issues
and the static-analysis issues of the input code. -/
def roundMergedIssues (c : Collab) (s : CodeState) : Except String (List PIssue) :=
  compareIssues c.ratio (roundCurrentQuality c s).issues (c.staticAnalysis s.code)

/-- refined_issues: the critic pass followed by priority adjustment. -/
def roundRefined (c : Collab) (s : CodeState) (merged : List PIssue) : List PIssue :=
  prioritizeIssues (c.critic s.code merged) s.feedback

/-- refactored_code: the refactor collaborator output when issues remain,
falling back to the unmodified code when that output is empty or
whitespace-only. -/
def roundRefactored (c : Collab) (s : CodeState) (merged : List PIssue) : String :=
  if (roundRefined c s merged).isEmpty then s.code
  else
    let rc := c.refactor s.code (roundRefined c s merged)
    if rc == "" || pyStrip rc == "" then s.code else rc

/-- The quality result on the refactored code. -/
def roundNewQuality (c : Collab) (s : CodeState) (merged : List PIssue) : QualityResult :=
  c.quality (roundRefactored c s merged)

/-- new_score (dict default: the round's current score). -/
def roundNewScore (c : Collab) (s : CodeState) (merged : List PIssue) : Rat :=
  (roundNewQuality c s merged).score.getD (roundCurrentScore c s)

/-- new_issues (dict default empty). -/
def roundNewIssues (c : Collab) (s : CodeState) (merged : List PIssue) : List RawIssue :=
  (roundNewQuality c s merged).issues

/-- high_severity_count of the round. -/
def roundHighCount (c : Collab) (s : CodeState) (merged : List PIssue) : Nat :=
  highSeverityCountRaw (roundNewIssues c s merged)

/-- The score history after appending the round's current score. -/
def roundPrevScores (c : Collab) (s : CodeState) : List Rat :=
  s.previous_scores ++ [roundCurrentScore c s]

/-- The round's improvement flag. -/
def roundImproved (c : Collab) (s : CodeState) : Bool :=
  improvedFlag s.previous_scores (roundCurrentScore c s)

/-- The round's updated stagnation counter. -/
def roundStagnation (c : Collab) (s : CodeState) : Nat :=
  stagnationUpdate (roundImproved c s) s.stagnation_count

/-- The optimization gate: not yet applied this run, high-severity count
within the configured maximum, outstanding issues at most half (floor) of
the pre-round count, and score at least 75. -/
def optimizationGate (c : Collab) (cfg : Config) (s : CodeState)
    (merged : List PIssue) : Bool :=
  !s.optimization_applied &&
    decide (roundHighCount c s merged ≤ resolvedMaxHigh cfg s) &&
    decide ((roundNewIssues c s merged).length ≤ (roundRefined c s merged).length / 2) &&
    decide (roundNewScore c s merged ≥ 75)

/-- optimization_suggestions: the optimization agent is invoked exactly
when the gate passes, otherwise the round keeps the empty list. -/
def roundSuggestions (c : Collab) (cfg : Config) (s : CodeState)
    (m : List PIssue) : List OptSuggestion :=
  if optimizationGate c cfg s m then c.optimizer (roundRefactored c s m) else []

/-- final_code and optimization_applied after the conditional optimization
sub-pass: the optimized code is adopted (and the applied flag set) only
when suggestions exist and the optimization refactor output is nonempty
and not whitespace-only. -/
def roundFinalApplied (c : Collab) (cfg : Config) (s : CodeState)
    (m : List PIssue) : String × Bool :=
  if optimizationGate c cfg s m then
    if (roundSuggestions c cfg s m).isEmpty then
      (roundRefactored c s m, s.optimization_applied)
    else
      let optimized := c.refactor (roundRefactored c s m)
        ((roundSuggestions c cfg s m).map optimizationIssue)
      if !(optimized == "") && !(pyStrip optimized == "") then (optimized, true)
      else (roundRefactored c s m, s.optimization_applied)
  else (roundRefactored c s m, s.optimization_applied)

/-- Result of one refinement round: the returned state dict, the printed
stop reason, whether the optimization agent was invoked this round, and
the appended iteration record. -/
structure StepResult where
  state : CodeState
  stopReason : Option StopReason
  suggesterInvoked : Bool
  record : RoundRecord
deriving Repr

/-- The body of refinement_step after a successful compare_issues call,
from the improvement bookkeeping to the returned state dict. -/
def refinementStepCore (c : Collab) (cfg : Config) (s : CodeState)
    (merged : List PIssue) : StepResult :=
  let minScore := resolvedMinScore cfg s
  let maxIter := resolvedMaxIterations cfg s
  let maxHigh := resolvedMaxHigh cfg s
  let refined := roundRefined c s merged
  let weighted := calculateWeightedIssueScore refined cfg.issue_weights
  let prevScores := roundPrevScores c s
  let improved := roundImproved c s
  let stagnation := roundStagnation c s
  let newScore := roundNewScore c s merged
  let newIssues := roundNewIssues c s merged
  let highCount := roundHighCount c s merged
  let gate := optimizationGate c cfg s merged
  let suggestions := roundSuggestions c cfg s merged
  let finalApplied := roundFinalApplied c cfg s merged
  let finalCode := finalApplied.1
  let appliedAfter := finalApplied.2
  let bestScore0 := s.best_score.getD 0
  let bestIssues0 := (s.best_issues.getD (.refined refined))
  let isNewBest :=
    newScore > bestScore0 ∨ (newScore = bestScore0 ∧ newIssues.length < bestIssues0.size)
  let bestCode := if isNewBest then finalCode else s.best_code.getD s.code
  let bestScore := if isNewBest then newScore else bestScore0
  let bestIssues : IssueListRef := if isNewBest then .raw newIssues else bestIssues0
  let issuesFixed := refined.length - newIssues.length
  let record : RoundRecord :=
    { iteration := s.iteration + 1
      score := newScore
      issue_count := newIssues.length
      issues_fixed := issuesFixed
      high_severity_count := highCount
      improved := improved
      optimization_applied := appliedAfter
      optimization_suggestions_count := suggestions.length
      weighted_issue_score := weighted }
  let stopReason := decideStop s.user_stop s.iteration maxIter newIssues.length
    newScore minScore highCount maxHigh weighted stagnation
    cfg.stagnation_threshold prevScores cfg.convergence_threshold
  { state :=
      { code := finalCode
        iteration := s.iteration + 1
        history := s.history ++ [record]
        continue_ := stopReason.isNone
        best_code := some bestCode
        best_score := some bestScore
        best_issues := some bestIssues
        issue_count := newIssues.length
        issues_fixed := issuesFixed
        feedback := s.feedback
        min_score_threshold := some minScore
        max_high_severity_issues := some maxHigh
        max_iterations := some maxIter
        optimization_applied := appliedAfter
        previous_scores := prevScores
        stagnation_count := stagnation
        user_stop := s.user_stop }
    stopReason := stopReason
    suggesterInvoked := gate
    record := record }

/-- refinement_step: one round; an exception escaping compare_issues
escapes the step. -/
def refinementStep (c : Collab) (cfg : Config) (s : CodeState) :
    Except String StepResult :=
  match roundMergedIssues c s with
  | .error e => .error e
  | .ok merged => .ok (refinementStepCore c cfg s merged)

/-- The LangGraph loop: run the refine node, loop back while the
continuation flag holds, with explicit fuel.  Also counts the rounds in
which the optimization agent was invoked. -/
def runRounds (c : Collab) (cfg : Config) : Nat → CodeState →
    Except String (CodeState × Nat)
  | 0, s => .ok (s, 0)
  | n + 1, s =>
    match refinementStep c cfg s with
    | .error e => .error e
    | .ok r =>
      if r.state.continue_ then
        match runRounds c cfg n r.state with
        | .error e => .error e
        | .ok (s2, k) => .ok (s2, k + (if r.suggesterInvoked then 1 else 0))
      else .ok (r.state, if r.suggesterInvoked then 1 else 0)

/-- Invocation count of a finished run (0 for an escaped exception). -/
def suggesterCalls (r : Except String (CodeState × Nat)) : Nat :=
  match r with
  | .ok (_, k) => k
  | .error _ => 0

/-! Helper lemmas about the stable sort. -/

theorem orderedInsertB_perm (le : α → α → Bool) (a : α) (l : List α) :
    (orderedInsertB le a l).Perm (a :: l) := by
  induction l with
  | nil => simp [orderedInsertB]
  | cons b bs ih =>
    simp only [orderedInsertB]
    split
    · exact List.Perm.refl _
    · exact (ih.cons b).trans (List.Perm.swap a b bs)

theorem stableSort_perm (le : α → α → Bool) (l : List α) :
    (stableSort le l).Perm l := by
  induction l with
  | nil => simp [stableSort]
  | cons x xs ih =>
    exact (orderedInsertB_perm le x (stableSort le xs)).trans (ih.cons x)

theorem mem_stableSort {le : α → α → Bool} {l : List α} {x : α} :
    x ∈ stableSort le l ↔ x ∈ l :=
  (stableSort_perm le l).mem_iff

theorem length_stableSort (le : α → α → Bool) (l : List α) :
    (stableSort le l).length = l.length :=
  (stableSort_perm le l).length_eq

/-! Helper lemma for the weighted score. -/

theorem foldl_add_eq_sum (f : α → Rat) (l : List α) (c : Rat) :
    l.foldl (fun acc i => acc + f i) c = c + (l.map f).sum := by
  induction l generalizing c with
  | nil => simp
  | cons x xs ih => simp [ih, add_assoc]

/-- A single critical security issue. -/
def criticalSecurityIssue : PIssue :=
  { line := 3
    description := "Hardcoded credential allows privilege escalation"
    suggestion := "move the secret to configuration"
    source := "AI"
    severity := "critical"
    confidence := 0.9
    category := "security" }

/-- A single low style issue. -/
def lowStyleIssue : PIssue :=
  { line := 7
    description := "Name does not follow the project convention"
    suggestion := "rename the variable"
    source := "Static"
    severity := "low"
    confidence := 0.8
    category := "style" }

/-- C7: the weighted outstanding-issue score is the sum over issues of
category weight times severity multiplier; with the default weights a
single critical security issue scores exactly 4, a single low style issue
scores exactly 0.4, and the empty list scores 0. -/
theorem weighted_issue_score_spec :
    (∀ (issues : List PIssue) (ws : String → Option Rat),
      calculateWeightedIssueScore issues ws
        = (issues.map fun i => (ws i.category).getD 1 * severityMultiplier i.severity).sum) ∧
    calculateWeightedIssueScore [criticalSecurityIssue] defaultIssueWeights = 4 ∧
    calculateWeightedIssueScore [lowStyleIssue] defaultIssueWeights = 0.4 ∧
    (∀ ws : String → Option Rat, calculateWeightedIssueScore [] ws = 0) := by
  refine ⟨fun issues ws => ?_, by decide, by decide, fun ws => rfl⟩
  simpa [calculateWeightedIssueScore] using
    foldl_add_eq_sum (fun i => (ws i.category).getD 1 * severityMultiplier i.severity) issues 0

/-- C5: for a round with at least one earlier round, the round is improved
exactly when the current primary score strictly exceeds the previous one,
and the stagnation counter resets to 0 on improvement and increments by 1
otherwise. -/
theorem improvement_and_stagnation_spec :
    ∀ (prev : List Rat) (current : Rat) (stag : Nat) (h : prev ≠ []),
      (improvedFlag prev current = true ↔ current > prev.getLast h) ∧
      (improvedFlag prev current = true → stagnationUpdate (improvedFlag prev current) stag = 0) ∧
      (improvedFlag prev current = false →
        stagnationUpdate (improvedFlag prev current) stag = stag + 1) := by
  intro prev current stag h
  refine ⟨?_, fun hi => by simp [stagnationUpdate, hi], fun hi => by simp [stagnationUpdate, hi]⟩
  rw [improvedFlag, List.getLast?_eq_getLast prev h]
  simp

/-- Witness for C5 at a concrete two-round history. -/
theorem improvement_and_stagnation_spec_witness :
    improvedFlag [(50 : Rat), 60] 70 = true ∧
    stagnationUpdate (improvedFlag [(50 : Rat), 60] 70) 3 = 0 := by
  have h := improvement_and_stagnation_spec [(50 : Rat), 60] 70 3 (by decide)
  have h1 : improvedFlag [(50 : Rat), 60] 70 = true := h.1.mpr (by norm_num)
  exact ⟨h1, h.2.1 h1⟩

/-- Rank of a severity under the fixed total order
critical > high > medium > low (larger is more severe). -/
def severityRank (s : String) : Nat :=
  if s == "critical" then 3
  else if s == "high" then 2
  else if s == "medium" then 1
  else 0

/-- C3: for matched issues whose severities lie in the severity enum, the
merged severity is one of the two input severities and its rank is at
least the larger input rank: escalation only, never de-escalation, and no
unconditional high. -/
theorem merge_severity_escalation_spec :
    ∀ (i1 i2 : PIssue),
      i1.severity ∈ (["critical", "high", "medium", "low"] : List String) →
      i2.severity ∈ (["critical", "high", "medium", "low"] : List String) →
      ((mergeSimilarIssues i1 i2).severity = i1.severity ∨
        (mergeSimilarIssues i1 i2).severity = i2.severity) ∧
      max (severityRank i1.severity) (severityRank i2.severity)
        ≤ severityRank (mergeSimilarIssues i1 i2).severity := by
  intro i1 i2 h1 h2
  have hsev : (mergeSimilarIssues i1 i2).severity =
      if severityWeight i1.severity ≥ severityWeight i2.severity
      then i1.severity else i2.severity := rfl
  simp only [List.mem_cons, List.not_mem_nil, or_false] at h1 h2
  rcases h1 with h1 | h1 | h1 | h1 <;> rcases h2 with h2 | h2 | h2 | h2 <;>
    rw [hsev, h1, h2] <;> decide

/-- Witness for C3 at a concrete low/critical pair: the merged severity is
critical, the more severe input. -/
theorem merge_severity_escalation_spec_witness :
    ((mergeSimilarIssues lowStyleIssue criticalSecurityIssue).severity = lowStyleIssue.severity ∨
      (mergeSimilarIssues lowStyleIssue criticalSecurityIssue).severity =
        criticalSecurityIssue.severity) ∧
    max (severityRank lowStyleIssue.severity) (severityRank criticalSecurityIssue.severity)
      ≤ severityRank (mergeSimilarIssues lowStyleIssue criticalSecurityIssue).severity :=
  merge_severity_escalation_spec lowStyleIssue criticalSecurityIssue (by decide) (by decide)

/-- A raw finding with security-indicating language and no severity key. -/
def securityWordedFinding : RawIssue :=
  { issue := some "SQL injection vulnerability in query construction" }

/-- C6 counterexample: a severity-less finding whose description contains
security-indicating language (the ingestion categorizer itself classifies
it as security) is normalized with severity medium, not high. -/
theorem severity_default_counterexample :
    securityWordedFinding.severity = none ∧
    categorizeIssue ((securityWordedFinding.issue).getD "") = "security" ∧
    (processAIIssue securityWordedFinding).severity = "medium" ∧
    (processAIIssue securityWordedFinding).severity ≠ "high" := by decide

/-- C6 amended: ingestion defaults an absent severity to medium regardless
of the description; security-indicating language influences only the
derived category.  (Absent fields are defaulted, never rejected: both
normalizers are total.) -/
theorem severity_default_spec :
    ∀ (raw : RawIssue), raw.severity = none →
      (processAIIssue raw).severity = "medium" ∧
      (processStaticIssue raw).severity = "medium" := by
  intro raw h
  constructor <;> simp [processAIIssue, processStaticIssue, h]

/-- Witness for amended C6 at the concrete security-worded finding. -/
theorem severity_default_spec_witness :
    (processAIIssue securityWordedFinding).severity = "medium" ∧
    (processStaticIssue securityWordedFinding).severity = "medium" :=
  severity_default_spec securityWordedFinding rfl

/-- An issue a user previously rejected (up to trim and lowercase). -/
def rejectedIssue : PIssue :=
  { line := 4
    description := "Unused variable x"
    suggestion := "remove it"
    source := "AI"
    severity := "medium"
    confidence := 0.8
    category := "general" }

/-- The rejection feedback entry matching rejectedIssue after
normalization. -/
def rejectionFeedback : Feedback :=
  { description := " unused variable X ", accepted := false }

/-- C4 counterexample: an issue whose normalized description matches a
rejected description is removed by the priority adjustment, so a nonempty
input list can come out empty: the issue does not merely lose priority, it
disappears. -/
theorem prioritize_deletes_rejected_counterexample :
    prioritizeIssues [rejectedIssue] [rejectionFeedback] = [] ∧
    ([rejectedIssue] : List PIssue) ≠ [] := by decide

/-- C4 amended: the priority adjustment deletes issues whose normalized
description matches a previously rejected description; every issue without
such a match appears in the output, with its priority field set. -/
theorem prioritize_preserves_unrejected_spec :
    ∀ (issues : List PIssue) (feedback : List Feedback) (i : PIssue),
      i ∈ issues →
      (rejectedDescriptions feedback).contains (pyLower (pyStrip i.description)) = false →
      withPriority i ∈ prioritizeIssues issues feedback := by
  intro issues feedback i hi hrej
  unfold prioritizeIssues
  rw [mem_stableSort]
  exact List.mem_filterMap.mpr ⟨i, hi, by rw [hrej]; simp⟩

/-- Witness for amended C4: an issue with no matching rejection survives
the priority adjustment. -/
theorem prioritize_preserves_unrejected_spec_witness :
    withPriority rejectedIssue ∈ prioritizeIssues [rejectedIssue] [] :=
  prioritize_preserves_unrejected_spec [rejectedIssue] [] rejectedIssue (by decide) (by decide)

/-- A raw finding carrying severity critical. -/
def criticalRawIssue : RawIssue :=
  { issue := some "eval on unsanitized input", severity := some "critical" }

/-- C10: the high-severity count used by the stop decision and the
optimization gate counts exactly the issues whose severity key equals
high; critical-severity issues never contribute to it, and the round
record carries exactly this count of the round's fresh issues. -/
theorem high_severity_count_spec :
    (∀ (l : List RawIssue) (i : RawIssue), i.severity = some "critical" →
      highSeverityCountRaw (i :: l) = highSeverityCountRaw l) ∧
    (∀ l : List RawIssue,
      highSeverityCountRaw (l.filter fun i => !(i.severity == some "critical"))
        = highSeverityCountRaw l) ∧
    (∀ (c : Collab) (cfg : Config) (s : CodeState) (m : List PIssue),
      (refinementStepCore c cfg s m).record.high_severity_count
        = highSeverityCountRaw (roundNewIssues c s m)) := by
  refine ⟨fun l i h => ?_, fun l => ?_, fun c cfg s m => rfl⟩
  · simp [highSeverityCountRaw, h]
  · unfold highSeverityCountRaw
    have key : ∀ a : RawIssue,
        ((a.severity == some "high") && !(a.severity == some "critical"))
          = (a.severity == some "high") := by
      intro a
      by_cases h : a.severity = some "high"
      · rw [h]; decide
      · have hb : (a.severity == some "high") = false := by simpa using h
        rw [hb]; simp
    rw [List.filter_filter]
    simp only [key]

/-- Witness for C10: a concrete critical issue does not change the
high-severity count. -/
theorem high_severity_count_spec_witness :
    highSeverityCountRaw [criticalRawIssue] = highSeverityCountRaw [] :=
  high_severity_count_spec.1 [] criticalRawIssue rfl

/-- The weighted outstanding score of the round's refined issues. -/
def roundWeighted (c : Collab) (cfg : Config) (s : CodeState) (m : List PIssue) : Rat :=
  calculateWeightedIssueScore (roundRefined c s m) cfg.issue_weights

/-- The stop reason of the round, as computed inside the step. -/
theorem stepCore_stopReason (c : Collab) (cfg : Config) (s : CodeState) (m : List PIssue) :
    (refinementStepCore c cfg s m).stopReason
      = decideStop s.user_stop s.iteration (resolvedMaxIterations cfg s)
          (roundNewIssues c s m).length (roundNewScore c s m) (resolvedMinScore cfg s)
          (roundHighCount c s m) (resolvedMaxHigh cfg s) (roundWeighted c cfg s m)
          (roundStagnation c s) cfg.stagnation_threshold (roundPrevScores c s)
          cfg.convergence_threshold := rfl

/-- The continuation flag of the returned state is exactly the absence of
a stop reason. -/
theorem stepCore_continue (c : Collab) (cfg : Config) (s : CodeState) (m : List PIssue) :
    (refinementStepCore c cfg s m).state.continue_
      = (refinementStepCore c cfg s m).stopReason.isNone := rfl

/-- C1: the stop conditions are evaluated in the fixed priority order
user stop, max iterations, zero issues, quality threshold, stagnation,
convergence; the first satisfied condition supplies the reason and if none
is satisfied the loop continues; and with max_iterations resolved to 1 and
no user stop, any round stops the run immediately with the max-iterations
reason, whatever the scores and issues, so the whole run is that single
round. -/
theorem stop_priority_spec :
    ∀ (c : Collab) (cfg : Config) (s : CodeState) (m : List PIssue),
      roundMergedIssues c s = .ok m →
      refinementStep c cfg s = .ok (refinementStepCore c cfg s m) ∧
      (s.user_stop = true →
        (refinementStepCore c cfg s m).stopReason = some .userStop) ∧
      (s.user_stop = false → s.iteration + 1 ≥ resolvedMaxIterations cfg s →
        (refinementStepCore c cfg s m).stopReason = some .maxIterations) ∧
      (s.user_stop = false → s.iteration + 1 < resolvedMaxIterations cfg s →
        (roundNewIssues c s m).length = 0 →
        (refinementStepCore c cfg s m).stopReason = some .noIssues) ∧
      (s.user_stop = false → s.iteration + 1 < resolvedMaxIterations cfg s →
        (roundNewIssues c s m).length ≠ 0 →
        (roundNewScore c s m ≥ resolvedMinScore cfg s ∧
          roundHighCount c s m ≤ resolvedMaxHigh cfg s ∧
          roundWeighted c cfg s m < 1) →
        (refinementStepCore c cfg s m).stopReason = some .qualityThreshold) ∧
      (s.user_stop = false → s.iteration + 1 < resolvedMaxIterations cfg s →
        (roundNewIssues c s m).length ≠ 0 →
        ¬(roundNewScore c s m ≥ resolvedMinScore cfg s ∧
          roundHighCount c s m ≤ resolvedMaxHigh cfg s ∧
          roundWeighted c cfg s m < 1) →
        roundStagnation c s ≥ cfg.stagnation_threshold →
        (refinementStepCore c cfg s m).stopReason = some .stagnation) ∧
      (s.user_stop = false → s.iteration + 1 < resolvedMaxIterations cfg s →
        (roundNewIssues c s m).length ≠ 0 →
        ¬(roundNewScore c s m ≥ resolvedMinScore cfg s ∧
          roundHighCount c s m ≤ resolvedMaxHigh cfg s ∧
          roundWeighted c cfg s m < 1) →
        roundStagnation c s < cfg.stagnation_threshold →
        hasConverged (roundPrevScores c s) cfg.convergence_threshold = true →
        (refinementStepCore c cfg s m).stopReason = some .convergence) ∧
      (s.user_stop = false → s.iteration + 1 < resolvedMaxIterations cfg s →
        (roundNewIssues c s m).length ≠ 0 →
        ¬(roundNewScore c s m ≥ resolvedMinScore cfg s ∧
          roundHighCount c s m ≤ resolvedMaxHigh cfg s ∧
          roundWeighted c cfg s m < 1) →
        roundStagnation c s < cfg.stagnation_threshold →
        hasConverged (roundPrevScores c s) cfg.convergence_threshold = false →
        (refinementStepCore c cfg s m).stopReason = none ∧
        (refinementStepCore c cfg s m).state.continue_ = true) ∧
      (s.user_stop = false → resolvedMaxIterations cfg s = 1 →
        (refinementStepCore c cfg s m).stopReason = some .maxIterations ∧
        (refinementStepCore c cfg s m).state.continue_ = false ∧
        ∀ n : Nat, runRounds c cfg (n + 1) s
          = .ok ((refinementStepCore c cfg s m).state,
              if (refinementStepCore c cfg s m).suggesterInvoked then 1 else 0)) := by
  intro c cfg s m hm
  have hstep : refinementStep c cfg s = .ok (refinementStepCore c cfg s m) := by
    unfold refinementStep
    rw [hm]
  refine ⟨hstep, ?_, ?_, ?_, ?_, ?_, ?_, ?_, ?_⟩
  · intro h
    rw [stepCore_stopReason]
    simp [decideStop, h]
  · intro h1 h2
    rw [stepCore_stopReason]
    simp [decideStop, h1, h2]
  · intro h1 h2 h3
    have h2n : ¬(s.iteration + 1 ≥ resolvedMaxIterations cfg s) := by omega
    rw [stepCore_stopReason]
    simp [decideStop, h1, h2n, h3]
  · intro h1 h2 h3 h4
    have h2n : ¬(s.iteration + 1 ≥ resolvedMaxIterations cfg s) := by omega
    rw [stepCore_stopReason]
    simp [decideStop, h1, h2n, h3, h4]
  · intro h1 h2 h3 h4 h5
    have h2n : ¬(s.iteration + 1 ≥ resolvedMaxIterations cfg s) := by omega
    rw [stepCore_stopReason]
    simp [decideStop, h1, h2n, h3, h4, h5]
  · intro h1 h2 h3 h4 h5 h6
    have h2n : ¬(s.iteration + 1 ≥ resolvedMaxIterations cfg s) := by omega
    have h5n : ¬(roundStagnation c s ≥ cfg.stagnation_threshold) := by omega
    rw [stepCore_stopReason]
    simp [decideStop, h1, h2n, h3, h4, h5n, h6]
  · intro h1 h2 h3 h4 h5 h6
    have h2n : ¬(s.iteration + 1 ≥ resolvedMaxIterations cfg s) := by omega
    have h5n : ¬(roundStagnation c s ≥ cfg.stagnation_threshold) := by omega
    have hr : (refinementStepCore c cfg s m).stopReason = none := by
      rw [stepCore_stopReason]
      simp [decideStop, h1, h2n, h3, h4, h5n, h6]
    exact ⟨hr, by rw [stepCore_continue, hr]; rfl⟩
  · intro h1 h2
    have h2ge : s.iteration + 1 ≥ resolvedMaxIterations cfg s := by omega
    have hr : (refinementStepCore c cfg s m).stopReason = some .maxIterations := by
      rw [stepCore_stopReason]
      simp [decideStop, h1, h2ge]
    have hc : (refinementStepCore c cfg s m).state.continue_ = false := by
      rw [stepCore_continue, hr]
      rfl
    refine ⟨hr, hc, fun n => ?_⟩
    unfold runRounds
    rw [hstep]
    simp [hc]

/-- A collaborator set whose analyzers report nothing and whose refactor
output is empty. -/
def trivialCollab : Collab :=
  { quality := fun _ => {}
    staticAnalysis := fun _ => []
    critic := fun _ issues => issues
    refactor := fun _ _ => ""
    optimizer := fun _ => []
    ratio := fun _ _ => 0 }

/-- A run state capped at a single iteration. -/
def oneIterState : CodeState :=
  { code := "print(1)", max_iterations := some 1 }

/-- Witness for C1: with max_iterations 1 and no user stop, the round
stops with the max-iterations reason and the loop does not continue. -/
theorem stop_priority_spec_witness :
    (refinementStepCore trivialCollab defaultConfig oneIterState []).stopReason
        = some StopReason.maxIterations ∧
    (refinementStepCore trivialCollab defaultConfig oneIterState []).state.continue_ = false := by
  have h :=
    (stop_priority_spec trivialCollab defaultConfig oneIterState [] rfl).2.2.2.2.2.2.2.2 rfl rfl
  exact ⟨h.1, h.2.1⟩

/-- Three outstanding issues used in the fallback scenario. -/
def outstandingA : PIssue :=
  { line := 2, description := "Missing input validation", suggestion := "validate",
    source := "AI", severity := "medium", confidence := 0.8, category := "general" }

def outstandingB : PIssue :=
  { line := 5, description := "Duplicate computation in branch", suggestion := "factor out",
    source := "AI", severity := "medium", confidence := 0.8, category := "general" }

def outstandingC : PIssue :=
  { line := 9, description := "Magic number without a name", suggestion := "name it",
    source := "Static", severity := "low", confidence := 0.8, category := "general" }

/-- A collaborator set whose refactor output is always empty while the
critic still reports three outstanding issues. -/
def fallbackCollab : Collab :=
  { quality := fun _ => { score := some 50, issues := [] }
    staticAnalysis := fun _ => []
    critic := fun _ _ => [outstandingA, outstandingB, outstandingC]
    refactor := fun _ _ => ""
    optimizer := fun _ => []
    ratio := fun _ _ => 0 }

/-- Input state for the fallback scenario. -/
def fallbackState : CodeState :=
  { code := "def f(): pass" }

/-- C8: when every refactor output of the round is whitespace-only and the
reconciled issue list is nonempty, the round's resulting code artifact is
string-equal to the round's input code, and the round still completes. -/
theorem refactor_fallback_spec :
    ∀ (c : Collab) (cfg : Config) (s : CodeState) (m : List PIssue),
      roundMergedIssues c s = .ok m →
      (∀ (code : String) (issues : List PIssue), pyStrip (c.refactor code issues) = "") →
      roundRefined c s m ≠ [] →
      (refinementStepCore c cfg s m).state.code = s.code ∧
      refinementStep c cfg s = .ok (refinementStepCore c cfg s m) := by
  intro c cfg s m hm hstrip hne
  have hstep : refinementStep c cfg s = .ok (refinementStepCore c cfg s m) := by
    unfold refinementStep
    rw [hm]
  have hrc : roundRefactored c s m = s.code := by
    unfold roundRefactored
    simp [List.isEmpty_iff, hne, hstrip]
  refine ⟨?_, hstep⟩
  show (roundFinalApplied c cfg s m).1 = s.code
  unfold roundFinalApplied
  split
  · split
    · simp [hrc]
    · simp only [hrc]
      simp [hstrip]
  · simp [hrc]

/-- Witness for C8: with three outstanding issues and an empty-output
refactor collaborator, the round's code is the input code. -/
theorem refactor_fallback_spec_witness :
    (refinementStepCore fallbackCollab defaultConfig fallbackState []).state.code
        = fallbackState.code ∧
    (roundRefined fallbackCollab fallbackState []).length = 3 :=
  ⟨(refactor_fallback_spec fallbackCollab defaultConfig fallbackState [] rfl
      (fun _ _ => rfl) (by decide)).1, by decide⟩

/-! Helper lemmas about enumIdx, the embedding of Python enumerate. -/

theorem enumIdx_length : ∀ (n : Nat) (l : List PIssue), (enumIdx n l).length = l.length
  | _, [] => rfl
  | n, _ :: as => by simp [enumIdx, enumIdx_length (n + 1) as]

theorem enumIdx_fst_ge : ∀ {n : Nat} {l : List PIssue} {i : Nat} {a : PIssue},
    (i, a) ∈ enumIdx n l → n ≤ i := by
  intro n l
  induction l generalizing n with
  | nil => intro i a h; simp [enumIdx] at h
  | cons x xs ih =>
    intro i a h
    rcases List.mem_cons.mp h with h | h
    · cases h; exact Nat.le_refl _
    · exact Nat.le_of_succ_le (ih h)

theorem enumIdx_snd_mem : ∀ {n : Nat} {l : List PIssue} {p : Nat × PIssue},
    p ∈ enumIdx n l → p.2 ∈ l := by
  intro n l
  induction l generalizing n with
  | nil => intro p h; simp [enumIdx] at h
  | cons x xs ih =>
    intro p h
    rcases List.mem_cons.mp h with h | h
    · cases h; exact List.mem_cons_self _ _
    · exact List.mem_cons_of_mem _ (ih h)

theorem enumIdx_exists_of_mem : ∀ {n : Nat} {l : List PIssue} {a : PIssue},
    a ∈ l → ∃ i, (i, a) ∈ enumIdx n l := by
  intro n l
  induction l generalizing n with
  | nil => intro a h; simp at h
  | cons x xs ih =>
    intro a h
    rcases List.mem_cons.mp h with h | h
    · exact ⟨n, h ▸ List.mem_cons_self _ _⟩
    · obtain ⟨i, hi⟩ := ih (n := n + 1) h
      exact ⟨i, List.mem_cons_of_mem _ hi⟩

theorem enumIdx_fst_inj : ∀ {n : Nat} {l : List PIssue} {i : Nat} {a b : PIssue},
    (i, a) ∈ enumIdx n l → (i, b) ∈ enumIdx n l → a = b := by
  intro n l
  induction l generalizing n with
  | nil => intro i a b h; simp [enumIdx] at h
  | cons x xs ih =>
    intro i a b ha hb
    rcases List.mem_cons.mp ha with ha | ha <;> rcases List.mem_cons.mp hb with hb | hb
    · cases ha; cases hb; rfl
    · cases ha; exact absurd (enumIdx_fst_ge hb) (by omega)
    · cases hb; exact absurd (enumIdx_fst_ge ha) (by omega)
    · exact ih ha hb

theorem enumIdx_map_fst_nodup : ∀ (n : Nat) (l : List PIssue),
    ((enumIdx n l).map Prod.fst).Nodup := by
  intro n l
  induction l generalizing n with
  | nil => simp [enumIdx]
  | cons x xs ih =>
    simp only [enumIdx, List.map_cons, List.nodup_cons]
    refine ⟨?_, ih (n + 1)⟩
    intro hmem
    obtain ⟨p, hp, hfst⟩ := List.mem_map.mp hmem
    obtain ⟨i, a⟩ := p
    simp only at hfst
    subst hfst
    have := enumIdx_fst_ge hp
    omega

/-! Helper counting lemmas. -/

theorem length_filter_split (p : α → Bool) : ∀ l : List α,
    (l.filter p).length + (l.filter fun a => !(p a)).length = l.length := by
  intro l
  induction l with
  | nil => rfl
  | cons x xs ih =>
    cases h : p x <;> simp [List.filter_cons, h] <;> omega

theorem nodup_subset_length {l1 l2 : List Nat} (h1 : l1.Nodup)
    (h2 : ∀ x ∈ l1, x ∈ l2) : l1.length ≤ l2.length := by
  calc l1.length = l1.toFinset.card := (List.toFinset_card_of_nodup h1).symm
    _ ≤ l2.toFinset.card := Finset.card_le_card (by
        intro x hx
        simp only [List.mem_toFinset] at hx ⊢
        exact h2 x hx)
    _ ≤ l2.length := l2.toFinset_card_le

theorem filter_contains_length_le (m : List Nat) (l : List (Nat × PIssue))
    (hnd : (l.map Prod.fst).Nodup) :
    (l.filter fun p => m.contains p.1).length ≤ m.length := by
  have hsl : List.Sublist ((l.filter fun p => m.contains p.1).map Prod.fst)
      (l.map Prod.fst) :=
    (List.filter_sublist l).map Prod.fst
  have hnd2 : ((l.filter fun p => m.contains p.1).map Prod.fst).Nodup :=
    hnd.sublist hsl
  have hsub : ∀ x ∈ (l.filter fun p => m.contains p.1).map Prod.fst, x ∈ m := by
    intro x hx
    obtain ⟨p, hp, hfst⟩ := List.mem_map.mp hx
    have hc : m.contains p.1 = true := (List.mem_filter.mp hp).2
    subst hfst
    simpa using hc
  have := nodup_subset_length hnd2 hsub
  simpa using this

/-- The static issue found by findMatch comes from the static list. -/
theorem findMatch_mem (ratio : String → String → Rat) (thr : Rat) (a : PIssue)
    (matched : List Nat) :
    ∀ (statics : List (Nat × PIssue)) (p : Nat × PIssue),
      findMatch ratio thr a matched statics = some p → p ∈ statics := by
  intro statics
  induction statics with
  | nil => intro p h; simp [findMatch] at h
  | cons q rest ih =>
    intro p h
    obtain ⟨idx, st⟩ := q
    rw [findMatch] at h
    split at h
    · exact List.mem_cons_of_mem _ (ih p h)
    · split at h
      · cases h; exact List.mem_cons_self _ _
      · exact List.mem_cons_of_mem _ (ih p h)

/-- Structure of the compare_issues matching loop: every AI issue shows up
in the produced list, standalone or merged with a static issue of the
static list; every index in the final matched set was either already
matched or belongs to a static issue merged into the produced list; the
produced list has one entry per AI issue; and the matched set grows by at
most one index per AI issue. -/
theorem matchIssues_spec (ratio : String → String → Rat) (thr : Rat) :
    ∀ (ais : List PIssue) (statics : List (Nat × PIssue)) (matched : List Nat),
      (∀ a ∈ ais, a ∈ (matchIssues ratio thr ais statics matched).1 ∨
        ∃ p ∈ statics, mergeSimilarIssues a p.2 ∈ (matchIssues ratio thr ais statics matched).1) ∧
      (∀ idx ∈ (matchIssues ratio thr ais statics matched).2, idx ∈ matched ∨
        ∃ a ∈ ais, ∃ p ∈ statics, p.1 = idx ∧
          mergeSimilarIssues a p.2 ∈ (matchIssues ratio thr ais statics matched).1) ∧
      (matchIssues ratio thr ais statics matched).1.length = ais.length ∧
      (matchIssues ratio thr ais statics matched).2.length ≤ matched.length + ais.length := by
  intro ais
  induction ais with
  | nil =>
    intro statics matched
    refine ⟨by simp, fun idx h => ?_, by simp [matchIssues], by simp [matchIssues]⟩
    simp only [matchIssues] at h
    exact Or.inl h
  | cons a rest ih =>
    intro statics matched
    rcases hfm : findMatch ratio thr a matched statics with _ | ⟨idx, st⟩
    · have hres : matchIssues ratio thr (a :: rest) statics matched
          = (a :: (matchIssues ratio thr rest statics matched).1,
             (matchIssues ratio thr rest statics matched).2) := by
        simp [matchIssues, hfm]
      obtain ⟨ih1, ih2, ih3, ih4⟩ := ih statics matched
      rw [hres]
      refine ⟨?_, ?_, ?_, ?_⟩
      · intro x hx
        rcases List.mem_cons.mp hx with rfl | hx
        · exact Or.inl (List.mem_cons_self _ _)
        · rcases ih1 x hx with h | ⟨p, hp, hmrg⟩
          · exact Or.inl (List.mem_cons_of_mem _ h)
          · exact Or.inr ⟨p, hp, List.mem_cons_of_mem _ hmrg⟩
      · intro j hj
        rcases ih2 j hj with hj | ⟨b, hb, p, hp, hpe, hmrg⟩
        · exact Or.inl hj
        · exact Or.inr ⟨b, List.mem_cons_of_mem _ hb, p, hp, hpe,
            List.mem_cons_of_mem _ hmrg⟩
      · simpa using ih3
      · simpa using Nat.le_trans ih4 (by omega)
    · have hres : matchIssues ratio thr (a :: rest) statics matched
          = (mergeSimilarIssues a st :: (matchIssues ratio thr rest statics (idx :: matched)).1,
             (matchIssues ratio thr rest statics (idx :: matched)).2) := by
        simp [matchIssues, hfm]
      have hpmem : (idx, st) ∈ statics := findMatch_mem ratio thr a matched statics _ hfm
      obtain ⟨ih1, ih2, ih3, ih4⟩ := ih statics (idx :: matched)
      rw [hres]
      refine ⟨?_, ?_, ?_, ?_⟩
      · intro x hx
        rcases List.mem_cons.mp hx with rfl | hx
        · exact Or.inr ⟨(idx, st), hpmem, List.mem_cons_self _ _⟩
        · rcases ih1 x hx with h | ⟨p, hp, hmrg⟩
          · exact Or.inl (List.mem_cons_of_mem _ h)
          · exact Or.inr ⟨p, hp, List.mem_cons_of_mem _ hmrg⟩
      · intro j hj
        rcases ih2 j hj with hj | ⟨b, hb, p, hp, hpe, hmrg⟩
        · rcases List.mem_cons.mp hj with rfl | hj
          · exact Or.inr ⟨a, List.mem_cons_self _ _, (j, st), hpmem, rfl,
              List.mem_cons_self _ _⟩
          · exact Or.inl hj
        · exact Or.inr ⟨b, List.mem_cons_of_mem _ hb, p, hp, hpe,
            List.mem_cons_of_mem _ hmrg⟩
      · simpa using ih3
      · have : (idx :: matched).length = matched.length + 1 := rfl
        simp only [List.length_cons] at ih4 ⊢
        omega

/-- The severity strings of the data model. -/
def validSeverities : List String := ["critical", "high", "medium", "low"]

/-- A merged issue takes one of the two input severities. -/
theorem mergeSimilarIssues_severity (i1 i2 : PIssue) :
    (mergeSimilarIssues i1 i2).severity = i1.severity ∨
      (mergeSimilarIssues i1 i2).severity = i2.severity := by
  have hs : (mergeSimilarIssues i1 i2).severity =
      if severityWeight i1.severity ≥ severityWeight i2.severity
      then i1.severity else i2.severity := rfl
  rw [hs]
  split
  · exact Or.inl rfl
  · exact Or.inr rfl

/-- Every element of the matching-loop output is a standalone AI issue or
the merge of an AI issue with a static issue. -/
theorem matchIssues_out_shape (ratio : String → String → Rat) (thr : Rat) :
    ∀ (ais : List PIssue) (statics : List (Nat × PIssue)) (matched : List Nat),
      ∀ x ∈ (matchIssues ratio thr ais statics matched).1,
        x ∈ ais ∨ ∃ a ∈ ais, ∃ p ∈ statics, x = mergeSimilarIssues a p.2 := by
  intro ais
  induction ais with
  | nil => intro statics matched x hx; simp [matchIssues] at hx
  | cons a rest ih =>
    intro statics matched x hx
    rcases hfm : findMatch ratio thr a matched statics with _ | ⟨idx, st⟩
    · have hres : matchIssues ratio thr (a :: rest) statics matched
          = (a :: (matchIssues ratio thr rest statics matched).1,
             (matchIssues ratio thr rest statics matched).2) := by
        simp [matchIssues, hfm]
      rw [hres] at hx
      rcases List.mem_cons.mp hx with rfl | hx
      · exact Or.inl (List.mem_cons_self _ _)
      · rcases ih statics matched x hx with h | ⟨b, hb, p, hp, he⟩
        · exact Or.inl (List.mem_cons_of_mem _ h)
        · exact Or.inr ⟨b, List.mem_cons_of_mem _ hb, p, hp, he⟩
    · have hres : matchIssues ratio thr (a :: rest) statics matched
          = (mergeSimilarIssues a st :: (matchIssues ratio thr rest statics (idx :: matched)).1,
             (matchIssues ratio thr rest statics (idx :: matched)).2) := by
        simp [matchIssues, hfm]
      rw [hres] at hx
      rcases List.mem_cons.mp hx with rfl | hx
      · exact Or.inr ⟨a, List.mem_cons_self _ _, (idx, st),
          findMatch_mem ratio thr a matched statics _ hfm, rfl⟩
      · rcases ih statics (idx :: matched) x hx with h | ⟨b, hb, p, hp, he⟩
        · exact Or.inl (List.mem_cons_of_mem _ h)
        · exact Or.inr ⟨b, List.mem_cons_of_mem _ hb, p, hp, he⟩

/-- When every input severity (after defaulting) is one of the data
model's four severities, the statistics loop of compare_issues succeeds
and the comparator returns a result. -/
theorem compareIssues_ok_of_valid :
    ∀ (ratio : String → String → Rat) (A B : List RawIssue),
      (∀ i ∈ A, i.severity.getD "medium" ∈ validSeverities) →
      (∀ i ∈ B, i.severity.getD "medium" ∈ validSeverities) →
      ∃ out, compareIssues ratio A B = .ok out := by
  intro ratio A B hA hB
  have hQai : ∀ x ∈ A.map processAIIssue,
      x.source = "AI" ∧ x.severity ∈ validSeverities := by
    intro x hx
    obtain ⟨i, hi, rfl⟩ := List.mem_map.mp hx
    exact ⟨rfl, hA i hi⟩
  have hQst : ∀ x ∈ B.map processStaticIssue,
      x.source = "Static" ∧ x.severity ∈ validSeverities := by
    intro x hx
    obtain ⟨i, hi, rfl⟩ := List.mem_map.mp hx
    exact ⟨rfl, hB i hi⟩
  have hvalid : statsValid
      ((matchIssues ratio 0.8 (A.map processAIIssue)
          (enumIdx 0 (B.map processStaticIssue)) []).1
        ++ ((enumIdx 0 (B.map processStaticIssue)).filter
            (fun p => !((matchIssues ratio 0.8 (A.map processAIIssue)
              (enumIdx 0 (B.map processStaticIssue)) []).2.contains p.1))).map (·.2))
      = true := by
    rw [statsValid, List.all_eq_true]
    intro x hx
    have hQ : (x.source = "AI" ∨ x.source = "Static" ∨ x.source = "Both") ∧
        x.severity ∈ validSeverities := by
      rcases List.mem_append.mp hx with hx1 | hx2
      · rcases matchIssues_out_shape ratio 0.8 _ _ [] x hx1 with hst | ⟨a, ha, p, hp, he⟩
        · obtain ⟨hsrc, hsev⟩ := hQai x hst
          exact ⟨Or.inl hsrc, hsev⟩
        · subst he
          refine ⟨Or.inr (Or.inr rfl), ?_⟩
          have hsa := (hQai a ha).2
          have hsp := (hQst p.2 (enumIdx_snd_mem hp)).2
          rcases mergeSimilarIssues_severity a p.2 with h | h <;> rw [h]
          exacts [hsa, hsp]
      · obtain ⟨p, hpf, rfl⟩ := List.mem_map.mp hx2
        obtain ⟨hsrc, hsev⟩ := hQst p.2 (enumIdx_snd_mem (List.mem_filter.mp hpf).1)
        exact ⟨Or.inr (Or.inl hsrc), hsev⟩
    obtain ⟨hsrc, hsev⟩ := hQ
    rw [Bool.and_eq_true]
    constructor
    · rcases hsrc with h | h | h <;> simp [h]
    · have := hsev
      simp only [validSeverities, List.mem_cons, List.not_mem_nil, or_false] at this
      rcases this with h | h | h | h <;> simp [h]
  refine ⟨stableSort compareSortLe
    ((matchIssues ratio 0.8 (A.map processAIIssue)
        (enumIdx 0 (B.map processStaticIssue)) []).1
      ++ ((enumIdx 0 (B.map processStaticIssue)).filter
          (fun p => !((matchIssues ratio 0.8 (A.map processAIIssue)
            (enumIdx 0 (B.map processStaticIssue)) []).2.contains p.1))).map (·.2)), ?_⟩
  simp only [compareIssues, hvalid, if_true]

/-- C2: whenever compare_issues returns (no KeyError in its statistics
loop), every normalized input issue of either analyzer appears in the
output, itself (keeping its original source tag) or merged with an issue
of the other analyzer; the output has at least max of the input lengths
and at most their sum, so each merge consumed exactly one issue of each
side; and empty analyzer outputs produce the empty output. -/
theorem reconciler_preserves_issues_spec :
    ∀ (ratio : String → String → Rat) (aiIssues staticIssues : List RawIssue)
      (out : List PIssue),
      compareIssues ratio aiIssues staticIssues = .ok out →
      (∀ a ∈ aiIssues.map processAIIssue,
        a ∈ out ∨ ∃ s ∈ staticIssues.map processStaticIssue, mergeSimilarIssues a s ∈ out) ∧
      (∀ s ∈ staticIssues.map processStaticIssue,
        s ∈ out ∨ ∃ a ∈ aiIssues.map processAIIssue, mergeSimilarIssues a s ∈ out) ∧
      max aiIssues.length staticIssues.length ≤ out.length ∧
      out.length ≤ aiIssues.length + staticIssues.length ∧
      compareIssues ratio [] [] = .ok [] ∧
      (∀ (A B : List RawIssue),
        (∀ i ∈ A, i.severity.getD "medium" ∈ validSeverities) →
        (∀ i ∈ B, i.severity.getD "medium" ∈ validSeverities) →
        ∃ out2, compareIssues ratio A B = .ok out2) := by
  intro ratio ai st out hok
  simp only [compareIssues] at hok
  split at hok
  case isFalse h => exact absurd hok (by simp)
  case isTrue h =>
  injection hok with hout
  subst hout
  obtain ⟨hA, hB, hC, hD⟩ :=
    matchIssues_spec ratio 0.8 (ai.map processAIIssue)
      (enumIdx 0 (st.map processStaticIssue)) []
  have hmem : ∀ (x : PIssue) (l1 l2 : List PIssue),
      x ∈ stableSort compareSortLe (l1 ++ l2) ↔ x ∈ l1 ∨ x ∈ l2 := by
    intro x l1 l2
    rw [mem_stableSort]
    exact List.mem_append
  refine ⟨?_, ?_, ?_, ?_, rfl, fun A B hA2 hB2 => compareIssues_ok_of_valid ratio A B hA2 hB2⟩
  · intro a ha
    rcases hA a ha with hstand | ⟨p, hp, hmrg⟩
    · exact Or.inl ((hmem _ _ _).mpr (Or.inl hstand))
    · exact Or.inr ⟨p.2, enumIdx_snd_mem hp, (hmem _ _ _).mpr (Or.inl hmrg)⟩
  · intro s hs
    obtain ⟨i, hi⟩ := enumIdx_exists_of_mem (n := 0) hs
    by_cases hct : (matchIssues ratio 0.8 (ai.map processAIIssue)
        (enumIdx 0 (st.map processStaticIssue)) []).2.contains i
    · have hiR2 : i ∈ (matchIssues ratio 0.8 (ai.map processAIIssue)
          (enumIdx 0 (st.map processStaticIssue)) []).2 := by simpa using hct
      rcases hB i hiR2 with habs | ⟨a, ha, p, hp, hpe, hmrg⟩
      · simp at habs
      · obtain ⟨pi, ps⟩ := p
        simp only at hpe
        subst hpe
        have hps : ps = s := enumIdx_fst_inj hp hi
        subst hps
        exact Or.inr ⟨a, ha, (hmem _ _ _).mpr (Or.inl hmrg)⟩
    · refine Or.inl ((hmem _ _ _).mpr (Or.inr ?_))
      refine List.mem_map.mpr ⟨(i, s), List.mem_filter.mpr ⟨hi, ?_⟩, rfl⟩
      simpa using hct
  · rw [length_stableSort, List.length_append]
    have hR1 : (matchIssues ratio 0.8 (ai.map processAIIssue)
        (enumIdx 0 (st.map processStaticIssue)) []).1.length = ai.length := by
      simpa [List.length_map] using hC
    have hR2 : (matchIssues ratio 0.8 (ai.map processAIIssue)
        (enumIdx 0 (st.map processStaticIssue)) []).2.length ≤ ai.length := by
      simpa [List.length_map] using hD
    have hEnum : (enumIdx 0 (st.map processStaticIssue)).length = st.length := by
      rw [enumIdx_length, List.length_map]
    have hsplit := length_filter_split
      (fun p : Nat × PIssue => (matchIssues ratio 0.8 (ai.map processAIIssue)
        (enumIdx 0 (st.map processStaticIssue)) []).2.contains p.1)
      (enumIdx 0 (st.map processStaticIssue))
    have hbound := filter_contains_length_le
      (matchIssues ratio 0.8 (ai.map processAIIssue)
        (enumIdx 0 (st.map processStaticIssue)) []).2
      (enumIdx 0 (st.map processStaticIssue))
      (enumIdx_map_fst_nodup 0 _)
    rw [List.length_map]
    omega
  · rw [length_stableSort, List.length_append]
    have hR1 : (matchIssues ratio 0.8 (ai.map processAIIssue)
        (enumIdx 0 (st.map processStaticIssue)) []).1.length = ai.length := by
      simpa [List.length_map] using hC
    have hEnum : (enumIdx 0 (st.map processStaticIssue)).length = st.length := by
      rw [enumIdx_length, List.length_map]
    have hfl := List.length_filter_le
      (fun p : Nat × PIssue => !((matchIssues ratio 0.8 (ai.map processAIIssue)
        (enumIdx 0 (st.map processStaticIssue)) []).2.contains p.1))
      (enumIdx 0 (st.map processStaticIssue))
    rw [List.length_map]
    omega

/-- A single AI-side raw finding for the reconciler witness. -/
def witnessRawIssue : RawIssue := { issue := some "bad call" }

/-- The reconciler output on that single finding and no static findings. -/
def witnessCompareOut : List PIssue := [processAIIssue witnessRawIssue]

/-- Witness for C2: one AI finding against no static findings survives the
reconciler standalone. -/
theorem reconciler_preserves_issues_spec_witness :
    processAIIssue witnessRawIssue ∈ witnessCompareOut ∨
      ∃ s ∈ ([] : List RawIssue).map processStaticIssue,
        mergeSimilarIssues (processAIIssue witnessRawIssue) s ∈ witnessCompareOut :=
  (reconciler_preserves_issues_spec (fun _ _ => 0) [witnessRawIssue] [] witnessCompareOut
    (by rfl)).1 (processAIIssue witnessRawIssue) (by simp)

/-- A raw quality finding of medium severity left outstanding each round. -/
def mediumRawIssue : RawIssue :=
  { issue := some "something questionable", severity := some "medium" }

/-- Two refined issues the critic keeps reporting. -/
def pendingIssue1 : PIssue :=
  { line := 1, description := "first finding", suggestion := "", source := "AI",
    severity := "medium", confidence := 0.8, category := "general" }

def pendingIssue2 : PIssue :=
  { line := 2, description := "second finding", suggestion := "", source := "AI",
    severity := "medium", confidence := 0.8, category := "general" }

/-- Collaborators under which the optimization gate passes every round
while the optimization agent finds nothing, so the applied flag is never
set: the quality score stays at 80 with one outstanding issue, the critic
keeps two issues alive, the refactor agent returns the code unchanged, and
the optimization agent returns no suggestions. -/
def repeatSuggestCollab : Collab :=
  { quality := fun _ => { score := some 80, issues := [mediumRawIssue] }
    staticAnalysis := fun _ => []
    critic := fun _ _ => [pendingIssue1, pendingIssue2]
    refactor := fun code _ => code
    optimizer := fun _ => []
    ratio := fun _ _ => 0 }

/-- Start state of the repeated-suggestion run. -/
def repeatSuggestState : CodeState := { code := "x" }

/-- C9 counterexample: this run invokes the optimization agent in two
distinct rounds (round 1 continues because stagnation has not yet been
reached; the gate passes again in round 2), so the optimization suggester
is not consumed only once per run. -/
theorem optimizer_single_use_counterexample :
    suggesterCalls (runRounds repeatSuggestCollab defaultConfig 5 repeatSuggestState) = 2 ∧
    ¬ suggesterCalls (runRounds repeatSuggestCollab defaultConfig 5 repeatSuggestState) ≤ 1 := by
  constructor <;> decide

/-- Once the applied flag is set, no later round of the run invokes the
optimization agent: the invocation count of the remaining rounds is 0. -/
theorem runRounds_no_calls_of_applied (c : Collab) (cfg : Config) :
    ∀ (n : Nat) (s : CodeState), s.optimization_applied = true →
      ∀ (s2 : CodeState) (k : Nat), runRounds c cfg n s = .ok (s2, k) → k = 0 := by
  intro n
  induction n with
  | zero =>
    intro s h s2 k hrun
    rw [runRounds] at hrun
    injection hrun with hp
    exact (congrArg Prod.snd hp).symm
  | succ n ih =>
    intro s h s2 k hrun
    rw [runRounds] at hrun
    cases hstep : refinementStep c cfg s with
    | error e => rw [hstep] at hrun; cases hrun
    | ok r =>
      rw [hstep] at hrun
      dsimp only at hrun
      obtain ⟨m, hmi, hr⟩ : ∃ m, roundMergedIssues c s = .ok m ∧
          r = refinementStepCore c cfg s m := by
        unfold refinementStep at hstep
        cases hmi : roundMergedIssues c s with
        | error e => rw [hmi] at hstep; cases hstep
        | ok m =>
          rw [hmi] at hstep
          injection hstep with h2
          exact ⟨m, rfl, h2.symm⟩
      have hgf : optimizationGate c cfg s m = false := by
        simp [optimizationGate, h]
      have hinv : r.suggesterInvoked = false := by
        rw [hr]; exact hgf
      have happ : r.state.optimization_applied = true := by
        rw [hr]
        show (roundFinalApplied c cfg s m).2 = true
        unfold roundFinalApplied
        rw [hgf]
        simpa using h
      by_cases hc : r.state.continue_ = true
      · rw [if_pos hc] at hrun
        cases hrec : runRounds c cfg n r.state with
        | error e => rw [hrec] at hrun; cases hrun
        | ok p =>
          obtain ⟨s3, k3⟩ := p
          rw [hrec] at hrun
          injection hrun with hp
          have hk3 : k3 = 0 := ih r.state happ s3 k3 hrec
          have hk : k = k3 + (if r.suggesterInvoked then 1 else 0) :=
            (congrArg Prod.snd hp).symm
          rw [hk, hk3, hinv]
          rfl
      · rw [if_neg hc] at hrun
        injection hrun with hp
        have hk : k = (if r.suggesterInvoked then 1 else 0) :=
          (congrArg Prod.snd hp).symm
        rw [hk, hinv]
        rfl

/-- C9 amended: optimization is applied in at most one round per run.  A
round invokes the optimization agent only under the gate (not yet applied
this run, high-severity count within the maximum, fresh issue count at
most half the pre-round count, score at least 75); once the applied flag
is set, a round neither invokes the agent nor clears the flag, and the
whole remaining run performs zero invocations.  The agent may, however, be
invoked in several rounds while no attempt succeeds, as the counterexample
shows. -/
theorem optimizer_at_most_once_applied_spec :
    ∀ (c : Collab) (cfg : Config) (s : CodeState) (m : List PIssue),
      (s.optimization_applied = true →
        (refinementStepCore c cfg s m).suggesterInvoked = false ∧
        (refinementStepCore c cfg s m).state.optimization_applied = true) ∧
      ((refinementStepCore c cfg s m).suggesterInvoked = true →
        s.optimization_applied = false ∧
        roundHighCount c s m ≤ resolvedMaxHigh cfg s ∧
        (roundNewIssues c s m).length ≤ (roundRefined c s m).length / 2 ∧
        roundNewScore c s m ≥ 75) ∧
      (∀ (n : Nat) (s2 : CodeState) (k : Nat),
        s.optimization_applied = true →
        runRounds c cfg n s = .ok (s2, k) → k = 0) := by
  intro c cfg s m
  refine ⟨fun h => ?_, fun h => ?_, fun n s2 k h hrun =>
    runRounds_no_calls_of_applied c cfg n s h s2 k hrun⟩
  · have hgf : optimizationGate c cfg s m = false := by
      simp [optimizationGate, h]
    refine ⟨hgf, ?_⟩
    show (roundFinalApplied c cfg s m).2 = true
    unfold roundFinalApplied
    rw [hgf]
    simpa using h
  · have hg : optimizationGate c cfg s m = true := h
    simp only [optimizationGate, Bool.and_eq_true, Bool.not_eq_true',
      decide_eq_true_eq] at hg
    exact ⟨hg.1.1.1, hg.1.1.2, hg.1.2, hg.2⟩

/-- A state in which optimization has already been applied. -/
def appliedState : CodeState := { code := "x", optimization_applied := true }

/-- Witness for amended C9: from an applied state the round does not
invoke the optimization agent and keeps the flag. -/
theorem optimizer_at_most_once_applied_spec_witness :
    (refinementStepCore trivialCollab defaultConfig appliedState []).suggesterInvoked = false ∧
    (refinementStepCore trivialCollab defaultConfig appliedState
      []).state.optimization_applied = true :=
  (optimizer_at_most_once_applied_spec trivialCollab defaultConfig appliedState []).1 rfl

end AIReview
